import Mathlib

/-!
# Verification of the solo-btc-explorer mining engine

Shallow embedding of the Go sources of the solo BTC mining coordinator:
the hash-primitive helpers (`calculateTarget`, `reverseBytes`, hex codec),
the worker batch search (`Worker.mineBatch`), the lossy-latest job mailbox
(`Worker.UpdateJob`), the worker lifecycle (`Worker.Start` / `Worker.Stop`),
the Stratum client request numbering (`Client.nextID` and friends),
`Client.handleMiningNotify`, extranonce2 generation, and `Config.Update`.

Bytes are modelled as `Nat` values (< 256 by construction of the decoders),
byte strings as `List Nat`, big integers (`math/big.Int` in the source) as
`Nat`/`Int`. The double-SHA-256 compression itself is an external library
call (`crypto/sha256`) and is abstracted as an explicit digest-function
parameter; every theorem quantifies over it.
-/

namespace SoloBTC

/-! ## Hex codec (Go `encoding/hex`) -/

/-- Value of one hex digit, `none` for a non-hex character
(Go `encoding/hex` accepts `0-9`, `a-f`, `A-F`). -/
def hexDigitVal (c : Char) : Option Nat :=
  if '0' ≤ c ∧ c ≤ '9' then some (c.toNat - '0'.toNat)
  else if 'a' ≤ c ∧ c ≤ 'f' then some (c.toNat - 'a'.toNat + 10)
  else if 'A' ≤ c ∧ c ≤ 'F' then some (c.toNat - 'A'.toNat + 10)
  else none

/-- Go `hex.DecodeString` with the error ignored (as every call site in the
source does): it decodes complete two-character pairs from the front and
stops at the first invalid character or at an odd-length tail, returning the
bytes decoded so far. -/
def hexDecodeChars : List Char → List Nat
  | c1 :: c2 :: rest =>
    match hexDigitVal c1, hexDigitVal c2 with
    | some h, some l => (16 * h + l) :: hexDecodeChars rest
    | _, _ => []
  | _ => []

/-- `hex.DecodeString` on a Lean `String`. -/
def hexDecode (s : String) : List Nat :=
  hexDecodeChars s.data

/-- Lower-case hex digit for a value `< 16` (Go `hex.EncodeToString` output
alphabet). -/
def hexChar (n : Nat) : Char :=
  if n < 10 then Char.ofNat ('0'.toNat + n) else Char.ofNat ('a'.toNat + (n - 10))

/-- Go `hex.EncodeToString`: two lower-case hex characters per byte. -/
def hexEncode (bytes : List Nat) : String :=
  String.mk (bytes.flatMap fun b => [hexChar (b / 16), hexChar (b % 16)])

/-- `fmt.Sprintf "%08x"` on a 32-bit value: eight lower-case hex digits,
most significant first. -/
def toHex8 (n : Nat) : String :=
  String.mk ((List.range 8).map fun i => hexChar (n / 16 ^ (7 - i) % 16))

/-! ## Big-endian integers and byte reversal -/

/-- `big.Int.SetBytes`: interpret a byte slice as a big-endian unsigned
integer. -/
def beNat (bytes : List Nat) : Nat :=
  bytes.foldl (fun acc b => acc * 256 + b) 0

/-- `reverseBytes` from the source returns a byte-reversed copy
(the loop writes `result[len-1-i] = data[i]`). -/
def reverseBytes (data : List Nat) : List Nat :=
  data.reverse

/-! ## Compact target decoding (`calculateTarget`) -/

/-- Go conversion of a (possibly negative) `int` to `uint`:
reduction modulo `2^64` on a 64-bit platform. -/
def goUintOfInt (i : Int) : Nat :=
  (i % (2 ^ 64 : Int)).toNat

/-- The difficulty-1 target constant set by `mineBatch` via
`SetString("00000000FFFF0000…0", 16)`. -/
def difficulty1Target : Nat :=
  0x00000000FFFF0000000000000000000000000000000000000000000000000000

/-- `calculateTarget` from the source: decode the nbits hex string; if it
does not yield exactly four bytes return zero; otherwise the first byte is
the exponent, bytes 1..3 the big-endian coefficient, and the target is
`coeff << uint(8*(exp-3))`.  The shift count is the Go `int`→`uint`
conversion of `8*(exp-3)`, which wraps modulo `2^64` when `exp < 3`. -/
def calculateTarget (nbits : String) : Nat :=
  let nbitsBytes := hexDecode nbits
  if nbitsBytes.length ≠ 4 then 0
  else
    let exp : Int := (nbitsBytes.getD 0 0 : Nat)
    let coeff := beNat (nbitsBytes.drop 1)
    coeff * 2 ^ goUintOfInt (8 * (exp - 3))

/-! ## Lossy-latest job mailbox (`NewWorker` / `Worker.UpdateJob`) -/

/-- `NewWorker` allocates `jobChannel := make(chan *stratum.Job, 10)`. -/
def jobChannelCap : Nat := 10

/-- `Worker.UpdateJob` under sequential delivery (a single producer, the
worker not draining): the outer `select` enqueues if the channel has room;
otherwise the inner `select` receives (and discards) the oldest queued job
and the final send enqueues the new one.  The channel is modelled as the
list of queued jobs, oldest first. -/
def updateJob {α : Type} (q : List α) (j : α) : List α :=
  if q.length < jobChannelCap then q ++ [j]
  else q.tail ++ [j]

/-- Whether the final unconditional send `w.jobChannel <- job` in
`UpdateJob` would block: it is reached only when the outer send found the
channel full, and it blocks iff the channel is still full after the inner
receive dropped the oldest job. -/
def updateJobWouldBlock {α : Type} (q : List α) : Bool :=
  !(q.length < jobChannelCap) && !(q.tail.length < jobChannelCap)

/-- Deliver a sequence of jobs with `UpdateJob`, oldest call first. -/
def runUpdates {α : Type} (q : List α) (l : List α) : List α :=
  l.foldl updateJob q

/-- No `UpdateJob` call of the sequence reaches a blocking send. -/
def noUpdateBlocks {α : Type} : List α → List α → Prop
  | _, [] => True
  | q, j :: l => updateJobWouldBlock q = false ∧ noUpdateBlocks (updateJob q j) l

/-! ## Jobs and block-header construction (`Worker.mineBatch`) -/

/-- `stratum.Job` as received from a `mining.notify` notification. -/
structure Job where
  id : String
  prevHash : String
  coinbase1 : String
  coinbase2 : String
  merkleBranch : List String
  version : String
  nbits : String
  ntime : String
  cleanJobs : Bool
  deriving DecidableEq

/-- Go `copy(dst, src)`: overwrite the first `min |dst| |src|` entries of
`dst` with those of `src` and keep the rest of `dst`. -/
def goCopy {α : Type} (dst src : List α) : List α :=
  src.take dst.length ++ dst.drop src.length

/-- Go `copy(dst[lo:hi], src)`, the whole backing list returned. -/
def copySlice {α : Type} (dst : List α) (lo hi : Nat) (src : List α) :
    List α :=
  dst.take lo ++ goCopy ((dst.drop lo).take (hi - lo)) src
    ++ dst.drop (min hi dst.length)

/-- The coinbase assembled by `mineBatch`:
`hex.DecodeString(job.Coinbase1 + extranonce1 + extranonce2 + job.Coinbase2)`. -/
def coinbaseOf (job : Job) (extranonce1 extranonce2 : String) : List Nat :=
  hexDecode (job.coinbase1 ++ extranonce1 ++ extranonce2 ++ job.coinbase2)

/-- The Merkle root computed by `mineBatch`: the double SHA-256 of the
coinbase, extended along `job.MerkleBranch` by hashing
`root ++ hex.DecodeString(branch)`.  `dsha` is the `doubleSHA256`
primitive (`crypto/sha256` applied twice), abstracted as a parameter. -/
def merkleRootOf (dsha : List Nat → List Nat) (job : Job)
    (extranonce1 extranonce2 : String) : List Nat :=
  job.merkleBranch.foldl (fun root branch => dsha (root ++ hexDecode branch))
    (dsha (coinbaseOf job extranonce1 extranonce2))

/-- The 80-byte block header built by `mineBatch`: an all-zero array with
version, prevhash, byte-reversed Merkle root, ntime and nbits copied into
bytes [0,4), [4,36), [36,68), [68,72) and [72,76); bytes [76,80) are left
for the nonce. -/
def buildHeader (dsha : List Nat → List Nat) (job : Job)
    (extranonce1 extranonce2 : String) : List Nat :=
  let merkleRootHex := reverseBytes (merkleRootOf dsha job extranonce1 extranonce2)
  copySlice (copySlice (copySlice (copySlice (copySlice
    (List.replicate 80 0) 0 4 (hexDecode job.version))
    4 36 (hexDecode job.prevHash))
    36 68 merkleRootHex)
    68 72 (hexDecode job.ntime))
    72 76 (hexDecode job.nbits)

/-- The nested-copy normal form of the header builder: five
`copy` calls into an 80-byte zero array. -/
def header80 (V P M T B : List Nat) : List Nat :=
  copySlice (copySlice (copySlice (copySlice (copySlice
    (List.replicate 80 (0 : Nat)) 0 4 V) 4 36 P) 36 68 M) 68 72 T) 72 76 B

/-- `binary.LittleEndian.PutUint32` output: four bytes, least significant
first. -/
def putUint32LE (n : Nat) : List Nat :=
  [n % 256, n / 256 % 256, n / 65536 % 256, n / 16777216 % 256]

/-- One nonce attempt of the loop writes the little-endian nonce into
header bytes [76,80). -/
def setNonce (header : List Nat) (nonce : Nat) : List Nat :=
  copySlice header 76 80 (putUint32LE nonce)

/-- The hash integer of attempt `i`:
`new(big.Int).SetBytes(reverseBytes(doubleSHA256(header)))` after the
`i`-th random nonce (`rand.Uint32()`, modelled by the stream `nonces`,
reduced mod `2^32`) has been written into the header. -/
def hashIntAt (dsha : List Nat → List Nat) (header : List Nat)
    (nonces : Nat → Nat) (i : Nat) : Nat :=
  beNat (reverseBytes (dsha (setNonce header (nonces i % 2 ^ 32))))

/-- Go `big.Int.Int64` on a nonnegative big integer: the gc runtime
returns the low 64 bits reinterpreted as a signed value (the language
specification leaves out-of-range inputs undefined). -/
def goInt64 (n : Nat) : Int :=
  if n % 2 ^ 64 < 2 ^ 63 then ((n % 2 ^ 64 : Nat) : Int)
  else ((n % 2 ^ 64 : Nat) : Int) - 2 ^ 64

/-- The best-difficulty bookkeeping of one nonce attempt: when the hash
integer is positive, the achieved difficulty `difficulty1Target / hashInt`
is computed (`float64(diff.Int64())` in the source; integers of magnitude
below `2^53` are exactly representable in float64, so the accumulator is
modelled as an exact integer) and the `(bestDifficulty, bestNonce)` pair
updated when strictly larger. -/
def bestUpdate (best : Int) (bestNonce : String) (hashInt nonce : Nat) :
    Int × String :=
  if 0 < hashInt then
    if best < goInt64 (difficulty1Target / hashInt)
      then (goInt64 (difficulty1Target / hashInt), toHex8 nonce)
      else (best, bestNonce)
  else (best, bestNonce)

/-- The nonce loop of `mineBatch`.  For each attempt: the random nonce is
written into the header, the hash integer computed, the best pair updated
by `bestUpdate`, and, if the hash integer is at most the target, the batch
stops and reports the share with the updated best difficulty. -/
def mineBatchLoop (dsha : List Nat → List Nat) (header : List Nat)
    (target : Nat) (nonces : Nat → Nat) :
    Nat → Nat → Int → String → Bool × String × Int
  | 0, _, best, bestNonce => (false, bestNonce, best)
  | fuel + 1, i, best, bestNonce =>
    let nonce := nonces i % 2 ^ 32
    let hashInt := hashIntAt dsha header nonces i
    if hashInt ≤ target then
      (true, toHex8 nonce, (bestUpdate best bestNonce hashInt nonce).1)
    else
      mineBatchLoop dsha header target nonces fuel (i + 1)
        (bestUpdate best bestNonce hashInt nonce).1
        (bestUpdate best bestNonce hashInt nonce).2

/-- `Worker.mineBatch`: decode the target from the job's nbits, build the
header, and run `batchSize` nonce attempts, returning
`(found, nonceHex, bestDifficulty)`.  The `hashCount` atomic counter of
the source only feeds hashrate reporting and is not modelled. -/
def mineBatch (dsha : List Nat → List Nat) (job : Job)
    (extranonce1 extranonce2 : String) (nonces : Nat → Nat)
    (batchSize : Nat) : Bool × String × Int :=
  let target := calculateTarget job.nbits
  let header := buildHeader dsha job extranonce1 extranonce2
  mineBatchLoop dsha header target nonces batchSize 0 0 ""

/-! ## Worker lifecycle (`Worker.Start` / `Worker.Stop` / `mineLoop`) -/

/-- The lifecycle-relevant worker state: the `running` flag and whether
the `shutdown` channel has been closed.  `NewWorker` allocates a fresh
open channel; nothing in the source ever re-creates it. -/
structure WorkerLifecycle where
  running : Bool
  shutdownClosed : Bool
  deriving DecidableEq

/-- `NewWorker`: not running, `shutdown` open. -/
def newWorkerState : WorkerLifecycle :=
  { running := false, shutdownClosed := false }

/-- `Worker.Start`: a no-op when already running; otherwise set `running`
and spawn `mineLoop`.  The `shutdown` channel is not re-created. -/
def workerStart (s : WorkerLifecycle) : WorkerLifecycle :=
  if s.running then s else { s with running := true }

/-- `Worker.Stop`: a no-op when not running; otherwise clear `running` and
`close(w.shutdown)`. -/
def workerStop (s : WorkerLifecycle) : WorkerLifecycle :=
  if s.running then { running := false, shutdownClosed := true } else s

/-- Whether the `mineLoop` goroutine spawned by `Start` actually mines
batches: receiving from a closed channel is always ready, so `mineLoop`
returns at its first `select` iff `shutdown` is closed. -/
def hashingInBackground (s : WorkerLifecycle) : Bool :=
  s.running && !s.shutdownClosed

/-- `Worker.Stop` reaches `close(w.shutdown)` whenever `running` holds;
closing an already-closed channel panics in Go. -/
def stopWouldPanic (s : WorkerLifecycle) : Bool :=
  s.running && s.shutdownClosed

/-! ## Stratum client request numbering (`Client.nextID` and callers) -/

/-- The request-numbering-relevant Stratum client state.  `requestID` is a
Go `int`, zero-initialised by `NewClient` and only ever touched by
`nextID`. -/
structure ClientState where
  requestID : Nat
  running : Bool
  subscribed : Bool
  authorized : Bool
  deriving DecidableEq

/-- `NewClient`. -/
def newClient : ClientState :=
  { requestID := 0, running := false, subscribed := false, authorized := false }

/-- `Client.nextID`: pre-increment and return the counter. -/
def nextID (c : ClientState) : Nat × ClientState :=
  (c.requestID + 1, { c with requestID := c.requestID + 1 })

/-- Client operations relevant to request numbering.  `connect` is
`Client.Connect` (re-creates the shutdown channel and sets `running`;
`requestID` is untouched); `disconnect` is the read-loop error path
(clears `running`, `subscribed`, `authorized`; `requestID` untouched);
the other three send one request numbered by `nextID`. -/
inductive ClientOp
  | connect
  | disconnect
  | subscribe
  | authorize
  | submit
  deriving DecidableEq

/-- One client operation: successor state and the (method, id) pairs put
on the wire. -/
def clientStep (c : ClientState) : ClientOp → ClientState × List (String × Nat)
  | .connect => ({ c with running := true }, [])
  | .disconnect =>
    ({ c with running := false, subscribed := false, authorized := false }, [])
  | .subscribe =>
    let r := nextID c
    (r.2, [("mining.subscribe", r.1)])
  | .authorize =>
    let r := nextID c
    (r.2, [("mining.authorize", r.1)])
  | .submit =>
    let r := nextID c
    (r.2, [("mining.submit", r.1)])

/-- Run a sequence of client operations, collecting the requests sent. -/
def clientRun (c : ClientState) :
    List ClientOp → ClientState × List (String × Nat)
  | [] => (c, [])
  | op :: ops =>
    let r := clientStep c op
    let rest := clientRun r.1 ops
    (rest.1, r.2 ++ rest.2)

/-! ## `Client.handleMiningNotify` -/

/-- `Client.handleMiningNotify`.  `α` stands for `json.RawMessage`;
`params` is `some p` when `json.Unmarshal` into `[]json.RawMessage`
succeeds and `none` otherwise; `decS`, `decL`, `decB` model
`json.Unmarshal` of one element into a string, a string slice and a bool
(call sites ignore the error, so any total function is admissible).
Returns the new current-job slot and whether `onJobReceived` runs. -/
def handleMiningNotify {α : Type} (decS : α → String) (decL : α → List String)
    (decB : α → Bool) (dflt : α) (params : Option (List α))
    (currentJob : Option Job) : Option Job × Bool :=
  match params with
  | none => (currentJob, false)
  | some p =>
    if p.length < 9 then (currentJob, false)
    else
      (some { id := decS (p.getD 0 dflt)
              prevHash := decS (p.getD 1 dflt)
              coinbase1 := decS (p.getD 2 dflt)
              coinbase2 := decS (p.getD 3 dflt)
              merkleBranch := decL (p.getD 4 dflt)
              version := decS (p.getD 5 dflt)
              nbits := decS (p.getD 6 dflt)
              ntime := decS (p.getD 7 dflt)
              cleanJobs := decB (p.getD 8 dflt) }, true)

/-! ## Extranonce2 generation (`generateExtranonce2` / `mineLoop`) -/

/-- `generateExtranonce2`: `rand.Read` fills `size` bytes (the random
source is the explicit `randByte` stream, reduced to byte range) and the
result is hex-encoded. -/
def generateExtranonce2 (size : Nat) (randByte : Nat → Nat) : String :=
  hexEncode ((List.range size).map fun i => randByte i % 256)

/-- The worker extranonce2 after `k` job updates: `Start` generates
`extranonce2Size` fresh bytes, and each job received by `mineLoop`
regenerates `len(w.extranonce2) / 2` bytes. -/
def extranonce2AfterUpdates (size : Nat) (rnd : Nat → Nat → Nat) :
    Nat → String
  | 0 => generateExtranonce2 size (rnd 0)
  | k + 1 =>
    generateExtranonce2 ((extranonce2AfterUpdates size rnd k).length / 2)
      (rnd (k + 1))

/-! ## Configuration update (`Config.Update`) -/

/-- Dynamic type of a JSON value decoded into a Go `interface{}`:
`string`, `float64`, `bool`, `nil`, or a composite (`[]interface{}` /
`map[string]interface{}`).  Numbers are modelled as rationals; Go decodes
JSON numbers into float64 and the claims do not exercise rounding. -/
inductive JSONValue
  | str (s : String)
  | num (q : Rat)
  | boolean (b : Bool)
  | null
  | composite

/-- Go `int(v)` on a float64: truncation toward zero. -/
def goIntOfFloat (q : Rat) : Int :=
  if 0 ≤ q then ⌊q⌋ else ⌈q⌉

/-- The five configuration fields. -/
structure Config where
  poolURL : String
  poolPort : Int
  walletAddress : String
  maxCPUPercent : Int
  numWorkers : Int
  deriving DecidableEq

/-- `DefaultConfig`. -/
def defaultConfig : Config :=
  { poolURL := "solo.ckpool.org"
    poolPort := 3333
    walletAddress := "1FngDUBvDhPh9z3paCRHFEtHjnUMAFacn9"
    maxCPUPercent := 80
    numWorkers := 4 }

/-- `if v, ok := updates["pool_url"].(string); ok { c.PoolURL = v }`. -/
def applyPoolURL (v : Option JSONValue) (c : Config) : Config :=
  match v with
  | some (.str s) => { c with poolURL := s }
  | _ => c

/-- `if v, ok := updates["pool_port"].(float64); ok { c.PoolPort = int(v) }`. -/
def applyPoolPort (v : Option JSONValue) (c : Config) : Config :=
  match v with
  | some (.num q) => { c with poolPort := goIntOfFloat q }
  | _ => c

/-- `if v, ok := updates["wallet_address"].(string); ok { … }`. -/
def applyWalletAddress (v : Option JSONValue) (c : Config) : Config :=
  match v with
  | some (.str s) => { c with walletAddress := s }
  | _ => c

/-- `if v, ok := updates["max_cpu_percent"].(float64); ok { … }`. -/
def applyMaxCPUPercent (v : Option JSONValue) (c : Config) : Config :=
  match v with
  | some (.num q) => { c with maxCPUPercent := goIntOfFloat q }
  | _ => c

/-- `if v, ok := updates["num_workers"].(float64); ok { … }`. -/
def applyNumWorkers (v : Option JSONValue) (c : Config) : Config :=
  match v with
  | some (.num q) => { c with numWorkers := goIntOfFloat q }
  | _ => c

/-- `Config.Update`: the five type-switched assignments in source order.
The update map is modelled as a lookup function (`map[string]interface{}`
indexing, `none` for an absent key). -/
def configUpdate (updates : String → Option JSONValue) (c : Config) : Config :=
  applyNumWorkers (updates "num_workers")
    (applyMaxCPUPercent (updates "max_cpu_percent")
      (applyWalletAddress (updates "wallet_address")
        (applyPoolPort (updates "pool_port")
          (applyPoolURL (updates "pool_url") c))))

/-! ## Concrete instances used by witnesses and counterexamples -/

/-- Jobs numbered 1..1000, the literal sequence of the lossy-latest
claim. -/
def thousandJobs : List Nat :=
  (List.range 1000).map fun i => i + 1

/-- A constant all-zero digest oracle (a stand-in for `doubleSHA256` in
closed instances; no concrete preimage data of the real double SHA-256 is
needed by the claims). -/
def zeroDigest : List Nat → List Nat := fun _ => List.replicate 32 0

/-- A job whose every hex field is empty. -/
def emptyJob : Job :=
  { id := "", prevHash := "", coinbase1 := "", coinbase2 := ""
    merkleBranch := [], version := "", nbits := "", ntime := ""
    cleanJobs := false }

/-- Big-endian bytes of the difficulty-1 target. -/
def difficulty1Bytes : List Nat :=
  List.replicate 4 0 ++ [255, 255] ++ List.replicate 26 0

/-- Digest oracle for the reported-difficulty counterexample: a header
carrying nonce 0 hashes to the difficulty-1 target and every other input
hashes to zero. -/
def cxDigest : List Nat → List Nat := fun input =>
  if input.drop 76 = putUint32LE 0 then reverseBytes difficulty1Bytes
  else List.replicate 32 0

/-- A job whose nbits decode to target 1 (exponent 3, coefficient 1). -/
def cxJob : Job :=
  { emptyJob with nbits := "03000001" }

/-- A job with well-formed field lengths (the layout witness). -/
def layoutJob : Job :=
  { id := "job1"
    prevHash := "00112233445566778899aabbccddeeff00112233445566778899aabbccddeeff"
    coinbase1 := "01", coinbase2 := "02", merkleBranch := []
    version := "20000000", nbits := "1d00ffff", ntime := "65f1b2c3"
    cleanJobs := false }

/-- An update map giving `pool_port` a string (the mismatched dynamic
type of the claim) and `wallet_address` a string (the matching type). -/
def mismatchedUpdates : String → Option JSONValue := fun k =>
  if k = "pool_port" then some (.str "3333")
  else if k = "wallet_address" then some (.str "bc1qexample")
  else none

/-! # Theorems -/

/-! ## Mailbox lemmas -/

theorem updateJob_length_le {α : Type} (q : List α) (j : α)
    (h : q.length ≤ jobChannelCap) : (updateJob q j).length ≤ jobChannelCap := by
  have hc : jobChannelCap = 10 := rfl
  simp only [updateJob, hc] at *
  by_cases hlt : q.length < 10
  · rw [if_pos hlt]
    simp only [List.length_append, List.length_singleton]
    omega
  · rw [if_neg hlt]
    simp only [List.length_append, List.length_singleton, List.length_tail]
    omega

theorem noUpdateBlocks_of_le {α : Type} (l : List α) :
    ∀ q : List α, q.length ≤ jobChannelCap → noUpdateBlocks q l := by
  induction l with
  | nil => intro q _; trivial
  | cons j l ih =>
    intro q hq
    refine ⟨?_, ih _ (updateJob_length_le q j hq)⟩
    simp only [updateJobWouldBlock, Bool.and_eq_false_iff, Bool.not_eq_false',
      decide_eq_true_eq]
    by_cases h : q.length < jobChannelCap
    · left; simpa using h
    · right
      have h10 : q.length = 10 := le_antisymm hq (le_of_not_lt h)
      simp [List.length_tail, h10, jobChannelCap]

theorem runUpdates_eq_drop {α : Type} (l : List α) :
    ∀ q : List α, q.length ≤ jobChannelCap →
      jobChannelCap ≤ q.length + l.length →
      runUpdates q l = (q ++ l).drop (q.length + l.length - jobChannelCap) := by
  have hc : jobChannelCap = 10 := rfl
  rw [hc]
  induction l with
  | nil =>
    intro q h1 h2
    have h3 : q.length = 10 := by simpa using le_antisymm h1 (by simpa using h2)
    simp [runUpdates, h3]
  | cons j l ih =>
    intro q h1 h2
    by_cases h : q.length < 10
    · have hstep : updateJob q j = q ++ [j] := by
        simp only [updateJob, hc]
        rw [if_pos h]
      have hrec := ih (q ++ [j])
        (by simp only [List.length_append, List.length_singleton]; omega)
        (by simp only [List.length_cons] at h2
            simp only [List.length_append, List.length_singleton]
            omega)
      simp only [runUpdates, List.foldl_cons, hstep] at hrec ⊢
      rw [hrec]
      have e1 : (q ++ [j]) ++ l = q ++ j :: l := by simp
      rw [e1]
      have hi : (q ++ [j]).length + l.length - 10
          = q.length + (j :: l).length - 10 := by
        simp only [List.length_append, List.length_singleton, List.length_cons,
          List.length_nil]
        omega
      rw [hi]
    · have hq : q.length = 10 := le_antisymm h1 (le_of_not_lt h)
      obtain ⟨a, q', rfl⟩ : ∃ a q', q = a :: q' := by
        cases q with
        | nil => simp at hq
        | cons a q' => exact ⟨a, q', rfl⟩
      have hq' : q'.length + 1 = 10 := by simpa using hq
      have hstep : updateJob (a :: q') j = q' ++ [j] := by
        simp only [updateJob, hc, List.tail_cons]
        rw [if_neg h]
      have hrec := ih (q' ++ [j])
        (by simp only [List.length_append, List.length_singleton]; omega)
        (by simp only [List.length_append, List.length_singleton]; omega)
      simp only [runUpdates, List.foldl_cons, hstep] at hrec ⊢
      rw [hrec]
      have e1 : (q' ++ [j]) ++ l = q' ++ j :: l := by simp
      have e2 : (a :: q') ++ j :: l = a :: (q' ++ j :: l) := by simp
      rw [e1, e2]
      have hi1 : (q' ++ [j]).length + l.length - 10 = l.length := by
        simp only [List.length_append, List.length_singleton]; omega
      have hi2 : (a :: q').length + (j :: l).length - 10 = l.length + 1 := by
        simp only [List.length_cons, List.length_nil]; omega
      rw [hi1, hi2, List.drop_succ_cons]

/-! ## C2: compact target decoding -/

/-- **C2** (code bug): `calculateTarget` matches the specified
`T = c · 2^(8·(e−3))` for the sanity anchor `"1d00ffff"` (the
difficulty-1 target) and returns zero when the input does not decode to
exactly four bytes — but for an exponent `e < 3`, where the specification
demands a right shift (`"0200ffff"` must give `0xffff >> 8 = 0xff`), the
Go `int`→`uint` conversion of the negative shift count wraps, and the
code instead computes `0xffff · 2^(2^64 − 8)`. -/
theorem calculateTarget_exponent_wraps :
    calculateTarget "1d00ffff" = difficulty1Target ∧
    calculateTarget "1d00ff" = 0 ∧
    calculateTarget "1d00ffff00" = 0 ∧
    calculateTarget "0200ffff" = 65535 * 2 ^ 18446744073709551608 ∧
    calculateTarget "0200ffff" ≠ 255 := by
  have hwrap : calculateTarget "0200ffff" = 65535 * 2 ^ 18446744073709551608 := by
    have h1 : hexDecode "0200ffff" = [2, 0, 255, 255] := by decide
    have h3 : beNat (([2, 0, 255, 255] : List Nat).drop 1) = 65535 := by decide
    have h4 : goUintOfInt (8 * (((([2, 0, 255, 255] : List Nat).getD 0 0 : Nat) : Int) - 3))
        = 18446744073709551608 := by decide
    simp only [calculateTarget, h1]
    rw [if_neg (by norm_num), h3, h4]
  refine ⟨by decide, by decide, by decide, hwrap, ?_⟩
  rw [hwrap]
  have h2 : (1 : Nat) ≤ 2 ^ 18446744073709551608 := Nat.one_le_two_pow
  revert h2
  generalize (2 : Nat) ^ 18446744073709551608 = P
  intro h2
  have : (255 : Nat) < 65535 * P :=
    calc (255 : Nat) < 65535 * 1 := by norm_num
    _ ≤ 65535 * P := Nat.mul_le_mul (le_refl _) h2
  exact (Nat.ne_of_lt this).symm

/-! ## C3: lossy-latest mailbox -/

/-- Length of the literal 1..1000 job sequence. -/
theorem thousandJobs_length : thousandJobs.length = 1000 := by
  rw [thousandJobs, List.length_map, List.length_range]

/-- After the 1000 updates the mailbox holds the last ten jobs. -/
theorem runUpdates_thousandJobs :
    runUpdates ([] : List Nat) thousandJobs = thousandJobs.drop 990 := by
  have h := runUpdates_eq_drop thousandJobs ([] : List Nat)
    (by simp) (by rw [List.length_nil, thousandJobs_length]
                  norm_num [jobChannelCap])
  rw [List.nil_append, List.length_nil, thousandJobs_length] at h
  norm_num [jobChannelCap] at h
  exact h

/-- **C3 counterexample**: after 1000 `UpdateJob` calls (jobs numbered
1..1000) without the worker draining, the next value received from the
10-slot mailbox is job 991 — the oldest retained — not the last enqueued
job 1000, contradicting the claim that the next observed job equals the
last one enqueued. -/
theorem runUpdates_head_ne_last :
    (runUpdates ([] : List Nat) thousandJobs).head? = some 991 ∧
    thousandJobs.getLast? = some 1000 ∧
    some (991 : Nat) ≠ some 1000 := by
  refine ⟨?_, ?_, by decide⟩
  · rw [runUpdates_thousandJobs, List.head?_drop, thousandJobs,
      List.getElem?_map, List.getElem?_range (by norm_num)]
    norm_num
  · rw [List.getLast?_eq_getElem?, thousandJobs_length, thousandJobs,
      List.getElem?_map, List.getElem?_range (by norm_num)]
    norm_num

/-- **C3 (amended)**: for any sequence of 1000 `UpdateJob` calls delivered
to a worker that never drains its mailbox, no call blocks, and the 10-slot
mailbox ends up holding exactly the last ten jobs enqueued, in order: the
worker's next observed job is the 991st enqueued (the oldest retained),
and the most recent job is retained as the newest entry. -/
theorem updateJob_lossy_latest {α : Type} (l : List α) (h : l.length = 1000) :
    noUpdateBlocks ([] : List α) l ∧
    runUpdates ([] : List α) l = l.drop 990 ∧
    (runUpdates ([] : List α) l).head? = l[990]? := by
  have h2 := runUpdates_eq_drop l ([] : List α)
    (by simp) (by rw [List.length_nil, h]; norm_num [jobChannelCap])
  rw [List.nil_append, List.length_nil, h] at h2
  norm_num [jobChannelCap] at h2
  exact ⟨noUpdateBlocks_of_le l [] (by simp), h2,
    by rw [h2, List.head?_drop]⟩

/-- Witness for the amended C3 statement at the literal job sequence
1..1000. -/
theorem updateJob_lossy_latest_witness :
    thousandJobs.length = 1000 ∧
    (noUpdateBlocks ([] : List Nat) thousandJobs ∧
     runUpdates ([] : List Nat) thousandJobs = thousandJobs.drop 990 ∧
     (runUpdates ([] : List Nat) thousandJobs).head? = thousandJobs[990]?) :=
  ⟨thousandJobs_length, updateJob_lossy_latest thousandJobs thousandJobs_length⟩

/-! ## C4: worker start/stop lifecycle -/

/-- **C4** (code bug): `Start` on a fresh worker begins hashing and both
`Start` and `Stop` are idempotent, but `Start` after a `Stop` does not
resume hashing: `Stop` closed the `shutdown` channel and nothing
re-creates it, so the re-spawned `mineLoop` returns at its first `select`
(and one further `Stop` would close a closed channel, a Go panic). -/
theorem workerStart_after_stop_does_not_hash :
    hashingInBackground (workerStart newWorkerState) = true ∧
    workerStart (workerStart newWorkerState) = workerStart newWorkerState ∧
    workerStop (workerStop (workerStart newWorkerState))
      = workerStop (workerStart newWorkerState) ∧
    (workerStart (workerStop (workerStart newWorkerState))).running = true ∧
    hashingInBackground (workerStart (workerStop (workerStart newWorkerState)))
      = false ∧
    stopWouldPanic (workerStart (workerStop (workerStart newWorkerState)))
      = true := by
  decide

/-! ## C5: Stratum request numbering -/

/-- **C5** (code bug): on a fresh client the subscribe, authorize and
submit requests are numbered 1, 2, 3, … as claimed, but after a
disconnect and reconnect on the same client the counter is not reset, so
the second `mining.subscribe` goes out with id 3 — not 1 — even though
`handleResponse` keys subscribe responses on id 1. -/
theorem clientRun_reconnect_subscribe_id :
    (clientRun newClient
        [.connect, .subscribe, .authorize, .submit, .submit]).2
      = [("mining.subscribe", 1), ("mining.authorize", 2),
         ("mining.submit", 3), ("mining.submit", 4)] ∧
    (clientRun newClient
        [.connect, .subscribe, .authorize, .disconnect, .connect,
         .subscribe]).2
      = [("mining.subscribe", 1), ("mining.authorize", 2),
         ("mining.subscribe", 3)] ∧
    (3 : Nat) ≠ 1 := by
  decide

/-! ## C8: short mining.notify params -/

/-- **C8**: a `mining.notify` whose params array has fewer than 9 elements
is dropped silently — the current job is unchanged and the job callback is
not invoked. -/
theorem handleMiningNotify_short_params {α : Type} (decS : α → String)
    (decL : α → List String) (decB : α → Bool) (dflt : α) (p : List α)
    (cj : Option Job) (h : p.length < 9) :
    handleMiningNotify decS decL decB dflt (some p) cj = (cj, false) := by
  simp [handleMiningNotify, h]

/-- Witness for C8 at the empty params array. -/
theorem handleMiningNotify_short_params_witness :
    ([] : List Unit).length < 9 ∧
    handleMiningNotify (fun _ => "") (fun _ => []) (fun _ => false) ()
      (some ([] : List Unit)) (some emptyJob) = (some emptyJob, false) :=
  ⟨by decide,
   handleMiningNotify_short_params (fun _ => "") (fun _ => []) (fun _ => false)
     () [] (some emptyJob) (by decide)⟩

/-! ## C9: extranonce2 length invariant -/

theorem hexEncode_length (bytes : List Nat) :
    (hexEncode bytes).length = 2 * bytes.length := by
  show (bytes.flatMap fun b => [hexChar (b / 16), hexChar (b % 16)]).length
      = 2 * bytes.length
  rw [List.length_flatMap]
  have h : (List.map
        (List.length ∘ fun b => [hexChar (b / 16), hexChar (b % 16)]) bytes)
      = List.replicate bytes.length 2 := by
    induction bytes with
    | nil => rfl
    | cons b bs ih =>
      simp only [List.map_cons, List.length_cons, List.replicate_succ, ih]
      simp [Function.comp]
  rw [h, List.sum_replicate, smul_eq_mul, Nat.mul_comm]

theorem generateExtranonce2_length (size : Nat) (randByte : Nat → Nat) :
    (generateExtranonce2 size randByte).length = 2 * size := by
  rw [generateExtranonce2, hexEncode_length, List.length_map,
    List.length_range]

/-- **C9**: a worker started with `extranonce2Size = size` carries an
extranonce2 hex string of length exactly `2 · size`, and the
regeneration performed on every job change (`len(w.extranonce2)/2` fresh
bytes) preserves that length, whatever the random source yields. -/
theorem extranonce2AfterUpdates_length (size : Nat) (rnd : Nat → Nat → Nat)
    (k : Nat) :
    (extranonce2AfterUpdates size rnd k).length = 2 * size := by
  induction k with
  | zero => exact generateExtranonce2_length size (rnd 0)
  | succ k ih =>
    show (generateExtranonce2 ((extranonce2AfterUpdates size rnd k).length / 2)
        (rnd (k + 1))).length = 2 * size
    rw [generateExtranonce2_length, ih]
    omega

/-! ## C10: configuration update frame -/

theorem configUpdate_poolURL (u : String → Option JSONValue) (c : Config) :
    (configUpdate u c).poolURL
      = match u "pool_url" with
        | some (.str s) => s
        | _ => c.poolURL := by
  have h5 : ∀ v (d : Config), (applyNumWorkers v d).poolURL = d.poolURL := by
    intro v d
    cases v with
    | none => rfl
    | some jv => cases jv <;> rfl
  have h4 : ∀ v (d : Config), (applyMaxCPUPercent v d).poolURL = d.poolURL := by
    intro v d
    cases v with
    | none => rfl
    | some jv => cases jv <;> rfl
  have h3 : ∀ v (d : Config), (applyWalletAddress v d).poolURL = d.poolURL := by
    intro v d
    cases v with
    | none => rfl
    | some jv => cases jv <;> rfl
  have h2 : ∀ v (d : Config), (applyPoolPort v d).poolURL = d.poolURL := by
    intro v d
    cases v with
    | none => rfl
    | some jv => cases jv <;> rfl
  rw [configUpdate, h5, h4, h3, h2]
  cases hv : u "pool_url" with
  | none => rfl
  | some jv => cases jv <;> rfl

theorem configUpdate_poolPort (u : String → Option JSONValue) (c : Config) :
    (configUpdate u c).poolPort
      = match u "pool_port" with
        | some (.num q) => goIntOfFloat q
        | _ => c.poolPort := by
  have h5 : ∀ v (d : Config), (applyNumWorkers v d).poolPort = d.poolPort := by
    intro v d
    cases v with
    | none => rfl
    | some jv => cases jv <;> rfl
  have h4 : ∀ v (d : Config), (applyMaxCPUPercent v d).poolPort = d.poolPort := by
    intro v d
    cases v with
    | none => rfl
    | some jv => cases jv <;> rfl
  have h3 : ∀ v (d : Config), (applyWalletAddress v d).poolPort = d.poolPort := by
    intro v d
    cases v with
    | none => rfl
    | some jv => cases jv <;> rfl
  have h1 : ∀ v (d : Config), (applyPoolURL v d).poolPort = d.poolPort := by
    intro v d
    cases v with
    | none => rfl
    | some jv => cases jv <;> rfl
  rw [configUpdate, h5, h4, h3]
  cases hv : u "pool_port" with
  | none => exact h1 _ _
  | some jv => cases jv <;> simp [applyPoolPort, h1]

theorem configUpdate_walletAddress (u : String → Option JSONValue)
    (c : Config) :
    (configUpdate u c).walletAddress
      = match u "wallet_address" with
        | some (.str s) => s
        | _ => c.walletAddress := by
  have h5 : ∀ v (d : Config),
      (applyNumWorkers v d).walletAddress = d.walletAddress := by
    intro v d
    cases v with
    | none => rfl
    | some jv => cases jv <;> rfl
  have h4 : ∀ v (d : Config),
      (applyMaxCPUPercent v d).walletAddress = d.walletAddress := by
    intro v d
    cases v with
    | none => rfl
    | some jv => cases jv <;> rfl
  have h2 : ∀ v (d : Config),
      (applyPoolPort v d).walletAddress = d.walletAddress := by
    intro v d
    cases v with
    | none => rfl
    | some jv => cases jv <;> rfl
  have h1 : ∀ v (d : Config),
      (applyPoolURL v d).walletAddress = d.walletAddress := by
    intro v d
    cases v with
    | none => rfl
    | some jv => cases jv <;> rfl
  rw [configUpdate, h5, h4]
  cases hv : u "wallet_address" with
  | none => simp [applyWalletAddress, h2, h1]
  | some jv => cases jv <;> simp [applyWalletAddress, h2, h1]

theorem configUpdate_maxCPUPercent (u : String → Option JSONValue)
    (c : Config) :
    (configUpdate u c).maxCPUPercent
      = match u "max_cpu_percent" with
        | some (.num q) => goIntOfFloat q
        | _ => c.maxCPUPercent := by
  have h5 : ∀ v (d : Config),
      (applyNumWorkers v d).maxCPUPercent = d.maxCPUPercent := by
    intro v d
    cases v with
    | none => rfl
    | some jv => cases jv <;> rfl
  have h3 : ∀ v (d : Config),
      (applyWalletAddress v d).maxCPUPercent = d.maxCPUPercent := by
    intro v d
    cases v with
    | none => rfl
    | some jv => cases jv <;> rfl
  have h2 : ∀ v (d : Config),
      (applyPoolPort v d).maxCPUPercent = d.maxCPUPercent := by
    intro v d
    cases v with
    | none => rfl
    | some jv => cases jv <;> rfl
  have h1 : ∀ v (d : Config),
      (applyPoolURL v d).maxCPUPercent = d.maxCPUPercent := by
    intro v d
    cases v with
    | none => rfl
    | some jv => cases jv <;> rfl
  rw [configUpdate, h5]
  cases hv : u "max_cpu_percent" with
  | none => simp [applyMaxCPUPercent, h3, h2, h1]
  | some jv => cases jv <;> simp [applyMaxCPUPercent, h3, h2, h1]

theorem configUpdate_numWorkers (u : String → Option JSONValue) (c : Config) :
    (configUpdate u c).numWorkers
      = match u "num_workers" with
        | some (.num q) => goIntOfFloat q
        | _ => c.numWorkers := by
  have h4 : ∀ v (d : Config),
      (applyMaxCPUPercent v d).numWorkers = d.numWorkers := by
    intro v d
    cases v with
    | none => rfl
    | some jv => cases jv <;> rfl
  have h3 : ∀ v (d : Config),
      (applyWalletAddress v d).numWorkers = d.numWorkers := by
    intro v d
    cases v with
    | none => rfl
    | some jv => cases jv <;> rfl
  have h2 : ∀ v (d : Config),
      (applyPoolPort v d).numWorkers = d.numWorkers := by
    intro v d
    cases v with
    | none => rfl
    | some jv => cases jv <;> rfl
  have h1 : ∀ v (d : Config),
      (applyPoolURL v d).numWorkers = d.numWorkers := by
    intro v d
    cases v with
    | none => rfl
    | some jv => cases jv <;> rfl
  rw [configUpdate]
  cases hv : u "num_workers" with
  | none => simp [applyNumWorkers, h4, h3, h2, h1]
  | some jv => cases jv <;> simp [applyNumWorkers, h4, h3, h2, h1]

/-- **C10**: `Config.Update` applies exactly the keys `pool_url`,
`pool_port`, `wallet_address`, `max_cpu_percent`, `num_workers`, each
only when the supplied JSON value has the matching dynamic type (string
for `pool_url`/`wallet_address`, number for the rest); a key with a
mismatched type is silently ignored, every field whose key is absent or
mismatched is unchanged, and no other key of the map is consulted. -/
theorem configUpdate_spec (u : String → Option JSONValue) (c : Config) :
    ((∀ s, u "pool_url" = some (.str s) → (configUpdate u c).poolURL = s) ∧
     ((∀ s, u "pool_url" ≠ some (.str s)) →
        (configUpdate u c).poolURL = c.poolURL)) ∧
    ((∀ q, u "pool_port" = some (.num q) →
        (configUpdate u c).poolPort = goIntOfFloat q) ∧
     ((∀ q, u "pool_port" ≠ some (.num q)) →
        (configUpdate u c).poolPort = c.poolPort)) ∧
    ((∀ s, u "wallet_address" = some (.str s) →
        (configUpdate u c).walletAddress = s) ∧
     ((∀ s, u "wallet_address" ≠ some (.str s)) →
        (configUpdate u c).walletAddress = c.walletAddress)) ∧
    ((∀ q, u "max_cpu_percent" = some (.num q) →
        (configUpdate u c).maxCPUPercent = goIntOfFloat q) ∧
     ((∀ q, u "max_cpu_percent" ≠ some (.num q)) →
        (configUpdate u c).maxCPUPercent = c.maxCPUPercent)) ∧
    ((∀ q, u "num_workers" = some (.num q) →
        (configUpdate u c).numWorkers = goIntOfFloat q) ∧
     ((∀ q, u "num_workers" ≠ some (.num q)) →
        (configUpdate u c).numWorkers = c.numWorkers)) ∧
    (∀ u' : String → Option JSONValue,
        u' "pool_url" = u "pool_url" →
        u' "pool_port" = u "pool_port" →
        u' "wallet_address" = u "wallet_address" →
        u' "max_cpu_percent" = u "max_cpu_percent" →
        u' "num_workers" = u "num_workers" →
        configUpdate u' c = configUpdate u c) := by
  refine ⟨⟨?_, ?_⟩, ⟨?_, ?_⟩, ⟨?_, ?_⟩, ⟨?_, ?_⟩, ⟨?_, ?_⟩, ?_⟩
  · intro s hs
    rw [configUpdate_poolURL, hs]
  · intro hns
    rw [configUpdate_poolURL]
    cases hv : u "pool_url" with
    | none => rfl
    | some jv =>
      cases jv with
      | str s => exact absurd hv (hns s)
      | num q => rfl
      | boolean b => rfl
      | null => rfl
      | composite => rfl
  · intro q hq
    rw [configUpdate_poolPort, hq]
  · intro hnq
    rw [configUpdate_poolPort]
    cases hv : u "pool_port" with
    | none => rfl
    | some jv =>
      cases jv with
      | str s => rfl
      | num q => exact absurd hv (hnq q)
      | boolean b => rfl
      | null => rfl
      | composite => rfl
  · intro s hs
    rw [configUpdate_walletAddress, hs]
  · intro hns
    rw [configUpdate_walletAddress]
    cases hv : u "wallet_address" with
    | none => rfl
    | some jv =>
      cases jv with
      | str s => exact absurd hv (hns s)
      | num q => rfl
      | boolean b => rfl
      | null => rfl
      | composite => rfl
  · intro q hq
    rw [configUpdate_maxCPUPercent, hq]
  · intro hnq
    rw [configUpdate_maxCPUPercent]
    cases hv : u "max_cpu_percent" with
    | none => rfl
    | some jv =>
      cases jv with
      | str s => rfl
      | num q => exact absurd hv (hnq q)
      | boolean b => rfl
      | null => rfl
      | composite => rfl
  · intro q hq
    rw [configUpdate_numWorkers, hq]
  · intro hnq
    rw [configUpdate_numWorkers]
    cases hv : u "num_workers" with
    | none => rfl
    | some jv =>
      cases jv with
      | str s => rfl
      | num q => exact absurd hv (hnq q)
      | boolean b => rfl
      | null => rfl
      | composite => rfl
  · intro u' e1 e2 e3 e4 e5
    simp only [configUpdate, e1, e2, e3, e4, e5]

/-- Witness for C10: on the default configuration, an update map that
gives `pool_port` a string leaves `poolPort` unchanged, while
`wallet_address` (matching type) is applied and `poolURL` (key absent)
is unchanged. -/
theorem configUpdate_spec_witness :
    (configUpdate mismatchedUpdates defaultConfig).poolPort
        = defaultConfig.poolPort ∧
    (configUpdate mismatchedUpdates defaultConfig).walletAddress
        = "bc1qexample" ∧
    (configUpdate mismatchedUpdates defaultConfig).poolURL
        = defaultConfig.poolURL :=
  ⟨(configUpdate_spec mismatchedUpdates defaultConfig).2.1.2
     (fun q => by simp [mismatchedUpdates]),
   (configUpdate_spec mismatchedUpdates defaultConfig).2.2.1.1
     "bc1qexample" (by simp [mismatchedUpdates]),
   (configUpdate_spec mismatchedUpdates defaultConfig).1.2
     (fun s => by simp [mismatchedUpdates])⟩

/-! ## C7: 80-byte header layout -/

theorem goCopy_length {α : Type} (d s : List α) : (goCopy d s).length = d.length := by
  simp [goCopy]
  omega

theorem goCopy_eq_of_length {α : Type} (d s : List α) (h : s.length = d.length) :
    goCopy d s = s := by
  have h2 : d.drop s.length = [] := by rw [h, List.drop_length]
  have h3 : s.take d.length = s := by rw [← h, List.take_length]
  rw [goCopy, h2, h3, List.append_nil]

theorem copySlice_length {α : Type} (d : List α) (lo hi : Nat) (s : List α)
    (h : lo ≤ hi) : (copySlice d lo hi s).length = d.length := by
  simp [copySlice, goCopy]
  omega

theorem copySlice_take_left {α : Type} (d : List α) (lo hi : Nat) (s : List α)
    (lo' : Nat) (h1 : lo' ≤ lo) (h2 : lo ≤ d.length) :
    (copySlice d lo hi s).take lo' = d.take lo' := by
  have hA : (d.take lo).length = lo := by simp [h2]
  rw [copySlice, List.append_assoc,
    List.take_append_of_le_length (by rw [hA]; exact h1), List.take_take,
    Nat.min_eq_left h1]

theorem copySlice_drop_right {α : Type} (d : List α) (lo hi : Nat) (s : List α)
    (hi' : Nat) (h1 : lo ≤ hi) (h2 : hi ≤ d.length) (h3 : hi ≤ hi') :
    (copySlice d lo hi s).drop hi' = d.drop hi' := by
  have hA : (d.take lo).length = lo := by simp; omega
  have hX : (goCopy ((d.drop lo).take (hi - lo)) s).length = hi - lo := by
    rw [goCopy_length]
    simp
    omega
  have hAX : (d.take lo ++ goCopy ((d.drop lo).take (hi - lo)) s).length = hi := by
    simp [hA, hX]
    omega
  have hmin : min hi d.length = hi := Nat.min_eq_left h2
  rw [copySlice, hmin]
  rw [show hi' = (d.take lo ++ goCopy ((d.drop lo).take (hi - lo)) s).length + (hi' - hi) by rw [hAX]; omega]
  rw [List.drop_append, List.drop_drop]
  congr 1
  omega

theorem copySlice_window {α : Type} (d : List α) (lo hi : Nat) (s : List α)
    (h1 : lo ≤ hi) (h2 : hi ≤ d.length) (h3 : s.length = hi - lo) :
    ((copySlice d lo hi s).drop lo).take (hi - lo) = s := by
  have hA : (d.take lo).length = lo := by simp; omega
  have hw : ((d.drop lo).take (hi - lo)).length = hi - lo := by simp; omega
  have hX : goCopy ((d.drop lo).take (hi - lo)) s = s := by
    rw [goCopy_eq_of_length]
    rw [hw, h3]
  rw [copySlice, hX, List.append_assoc, List.drop_left' hA,
    List.take_append_of_le_length (by rw [h3]), ← h3, List.take_length]

theorem copySlice_seg {α : Type} (d : List α) (lo hi : Nat) (s : List α)
    (a b : Nat) (h0 : a ≤ b) (h1 : b ≤ lo) (h2 : lo ≤ d.length) :
    ((copySlice d lo hi s).drop a).take (b - a)
      = (d.drop a).take (b - a) := by
  rw [List.take_drop, List.take_drop]
  rw [show a + (b - a) = b by omega]
  rw [copySlice_take_left d lo hi s b h1 h2]

theorem header80_layout (V P M T B : List Nat)
    (hv : V.length = 4) (hp : P.length = 32) (hm : M.length = 32)
    (ht : T.length = 4) (hb : B.length = 4) :
    (header80 V P M T B).length = 80 ∧
    (header80 V P M T B).take 4 = V ∧
    ((header80 V P M T B).drop 4).take 32 = P ∧
    ((header80 V P M T B).drop 36).take 32 = M ∧
    ((header80 V P M T B).drop 68).take 4 = T ∧
    ((header80 V P M T B).drop 72).take 4 = B ∧
    (header80 V P M T B).drop 76 = [0, 0, 0, 0] := by
  have l0 : (List.replicate 80 (0 : Nat)).length = 80 := by simp
  have l1 : (copySlice (List.replicate 80 (0 : Nat)) 0 4 V).length = 80 := by
    rw [copySlice_length _ _ _ _ (by norm_num), l0]
  have l2 : (copySlice (copySlice (List.replicate 80 (0 : Nat)) 0 4 V)
      4 36 P).length = 80 := by
    rw [copySlice_length _ _ _ _ (by norm_num), l1]
  have l3 : (copySlice (copySlice (copySlice (List.replicate 80 (0 : Nat))
      0 4 V) 4 36 P) 36 68 M).length = 80 := by
    rw [copySlice_length _ _ _ _ (by norm_num), l2]
  have l4 : (copySlice (copySlice (copySlice (copySlice
      (List.replicate 80 (0 : Nat)) 0 4 V) 4 36 P) 36 68 M)
      68 72 T).length = 80 := by
    rw [copySlice_length _ _ _ _ (by norm_num), l3]
  have l5 : (header80 V P M T B).length = 80 := by
    rw [header80, copySlice_length _ _ _ _ (by norm_num), l4]
  refine ⟨l5, ?_, ?_, ?_, ?_, ?_, ?_⟩
  · -- version at [0,4)
    have w := copySlice_window (List.replicate 80 (0 : Nat)) 0 4 V
      (by norm_num) (by rw [l0]; norm_num) (by rw [hv])
    rw [List.drop_zero] at w
    norm_num at w
    rw [header80,
      copySlice_take_left _ _ _ _ _ (by norm_num) (by rw [l4]; norm_num),
      copySlice_take_left _ _ _ _ _ (by norm_num) (by rw [l3]; norm_num),
      copySlice_take_left _ _ _ _ _ (by norm_num) (by rw [l2]; norm_num),
      copySlice_take_left _ _ _ _ _ (by norm_num) (by rw [l1]; norm_num), w]
  · -- prevhash at [4,36)
    have w := copySlice_window (copySlice (List.replicate 80 (0 : Nat)) 0 4 V)
      4 36 P (by norm_num) (by rw [l1]; norm_num) (by rw [hp])
    norm_num at w
    have s3 := copySlice_seg (copySlice (copySlice (List.replicate 80 (0 : Nat))
      0 4 V) 4 36 P) 36 68 M 4 36 (by norm_num) (by norm_num)
      (by rw [l2]; norm_num)
    have s4 := copySlice_seg (copySlice (copySlice (copySlice
      (List.replicate 80 (0 : Nat)) 0 4 V) 4 36 P) 36 68 M) 68 72 T 4 36
      (by norm_num) (by norm_num) (by rw [l3]; norm_num)
    have s5 := copySlice_seg (copySlice (copySlice (copySlice (copySlice
      (List.replicate 80 (0 : Nat)) 0 4 V) 4 36 P) 36 68 M) 68 72 T)
      72 76 B 4 36 (by norm_num) (by norm_num) (by rw [l4]; norm_num)
    norm_num at s3 s4 s5
    rw [header80, s5, s4, s3, w]
  · -- merkle root at [36,68)
    have w := copySlice_window (copySlice (copySlice (List.replicate 80
      (0 : Nat)) 0 4 V) 4 36 P) 36 68 M (by norm_num) (by rw [l2]; norm_num)
      (by rw [hm])
    norm_num at w
    have s4 := copySlice_seg (copySlice (copySlice (copySlice
      (List.replicate 80 (0 : Nat)) 0 4 V) 4 36 P) 36 68 M) 68 72 T 36 68
      (by norm_num) (by norm_num) (by rw [l3]; norm_num)
    have s5 := copySlice_seg (copySlice (copySlice (copySlice (copySlice
      (List.replicate 80 (0 : Nat)) 0 4 V) 4 36 P) 36 68 M) 68 72 T)
      72 76 B 36 68 (by norm_num) (by norm_num) (by rw [l4]; norm_num)
    norm_num at s4 s5
    rw [header80, s5, s4, w]
  · -- ntime at [68,72)
    have w := copySlice_window (copySlice (copySlice (copySlice
      (List.replicate 80 (0 : Nat)) 0 4 V) 4 36 P) 36 68 M) 68 72 T
      (by norm_num) (by rw [l3]; norm_num) (by rw [ht])
    norm_num at w
    have s5 := copySlice_seg (copySlice (copySlice (copySlice (copySlice
      (List.replicate 80 (0 : Nat)) 0 4 V) 4 36 P) 36 68 M) 68 72 T)
      72 76 B 68 72 (by norm_num) (by norm_num) (by rw [l4]; norm_num)
    norm_num at s5
    rw [header80, s5, w]
  · -- nbits at [72,76)
    have w := copySlice_window (copySlice (copySlice (copySlice (copySlice
      (List.replicate 80 (0 : Nat)) 0 4 V) 4 36 P) 36 68 M) 68 72 T)
      72 76 B (by norm_num) (by rw [l4]; norm_num) (by rw [hb])
    norm_num at w
    rw [header80, w]
  · -- zero nonce slot
    rw [header80,
      copySlice_drop_right _ _ _ _ _ (by norm_num) (by rw [l4]; norm_num)
        (by norm_num),
      copySlice_drop_right _ _ _ _ _ (by norm_num) (by rw [l3]; norm_num)
        (by norm_num),
      copySlice_drop_right _ _ _ _ _ (by norm_num) (by rw [l2]; norm_num)
        (by norm_num),
      copySlice_drop_right _ _ _ _ _ (by norm_num) (by rw [l1]; norm_num)
        (by norm_num),
      copySlice_drop_right _ _ _ _ _ (by norm_num) (by rw [l0]; norm_num)
        (by norm_num),
      List.drop_replicate]
    decide

/-- `buildHeader` is the five-copy normal form applied to the decoded
fields and the byte-reversed Merkle root. -/
theorem buildHeader_eq_header80 (dsha : List Nat → List Nat) (job : Job)
    (e1 e2 : String) :
    buildHeader dsha job e1 e2
      = header80 (hexDecode job.version) (hexDecode job.prevHash)
          (reverseBytes (merkleRootOf dsha job e1 e2))
          (hexDecode job.ntime) (hexDecode job.nbits) := rfl

theorem merkleRootOf_length (dsha : List Nat → List Nat) (job : Job)
    (e1 e2 : String) (hd : ∀ x, (dsha x).length = 32) :
    (merkleRootOf dsha job e1 e2).length = 32 := by
  rw [merkleRootOf]
  suffices h : ∀ (l : List String) (init : List Nat), init.length = 32 →
      (l.foldl (fun root branch => dsha (root ++ hexDecode branch))
        init).length = 32 from h _ _ (hd _)
  intro l
  induction l with
  | nil => intro init hi; simpa using hi
  | cons b bs ih => intro init hi; exact ih (dsha (init ++ hexDecode b)) (hd _)

/-- **C7**: for every job whose hex fields decode to the expected byte
counts (and any 32-byte digest primitive), the constructed block header
is exactly 80 bytes with version at [0,4), prev_hash at [4,36), the
byte-reversed Merkle root at [36,68), ntime at [68,72), nbits at [72,76),
and bytes [76,80) zero before the nonce write; when `merkle_branch` is
empty the Merkle root placed in the header is
`reverse_bytes(double_sha256(coinbase))`. -/
theorem buildHeader_layout (dsha : List Nat → List Nat) (job : Job)
    (e1 e2 : String)
    (hd : ∀ x, (dsha x).length = 32)
    (hv : (hexDecode job.version).length = 4)
    (hp : (hexDecode job.prevHash).length = 32)
    (ht : (hexDecode job.ntime).length = 4)
    (hb : (hexDecode job.nbits).length = 4) :
    (buildHeader dsha job e1 e2).length = 80 ∧
    (buildHeader dsha job e1 e2).take 4 = hexDecode job.version ∧
    ((buildHeader dsha job e1 e2).drop 4).take 32 = hexDecode job.prevHash ∧
    ((buildHeader dsha job e1 e2).drop 36).take 32
      = reverseBytes (merkleRootOf dsha job e1 e2) ∧
    ((buildHeader dsha job e1 e2).drop 68).take 4 = hexDecode job.ntime ∧
    ((buildHeader dsha job e1 e2).drop 72).take 4 = hexDecode job.nbits ∧
    (buildHeader dsha job e1 e2).drop 76 = [0, 0, 0, 0] ∧
    (job.merkleBranch = [] →
      ((buildHeader dsha job e1 e2).drop 36).take 32
        = reverseBytes (dsha (coinbaseOf job e1 e2))) := by
  have hm : (reverseBytes (merkleRootOf dsha job e1 e2)).length = 32 := by
    rw [reverseBytes, List.length_reverse,
      merkleRootOf_length dsha job e1 e2 hd]
  have H := header80_layout (hexDecode job.version) (hexDecode job.prevHash)
    (reverseBytes (merkleRootOf dsha job e1 e2)) (hexDecode job.ntime)
    (hexDecode job.nbits) hv hp hm ht hb
  rw [buildHeader_eq_header80]
  refine ⟨H.1, H.2.1, H.2.2.1, H.2.2.2.1, H.2.2.2.2.1, H.2.2.2.2.2.1,
    H.2.2.2.2.2.2, ?_⟩
  intro hempty
  rw [H.2.2.2.1, reverseBytes, reverseBytes, merkleRootOf, hempty,
    List.foldl_nil]

/-- Witness for C7 at a concrete well-formed job and the constant
32-byte digest. -/
theorem buildHeader_layout_witness :
    (buildHeader zeroDigest layoutJob "81000001" "0000abcd").length = 80 ∧
    (buildHeader zeroDigest layoutJob "81000001" "0000abcd").drop 76
      = [0, 0, 0, 0] ∧
    (buildHeader zeroDigest layoutJob "81000001" "0000abcd").take 4
      = hexDecode layoutJob.version := by
  have H := buildHeader_layout zeroDigest layoutJob "81000001" "0000abcd"
    (fun x => by simp [zeroDigest]) (by decide) (by decide) (by decide)
    (by decide)
  exact ⟨H.1, H.2.2.2.2.2.2.1, H.2.1⟩

/-! ## C1 and C6: batch search, share target and reported difficulty -/

theorem goInt64_eq_of_lt (n : Nat) (h : n < 2 ^ 53) : goInt64 n = (n : Int) := by
  have h64 : n < 2 ^ 64 := lt_trans h (by norm_num)
  have h63 : n < 2 ^ 63 := lt_trans h (by norm_num)
  rw [goInt64, Nat.mod_eq_of_lt h64, if_pos h63]

theorem bestUpdate_fst_bounds (best : Int) (bn : String) (h n cap : Nat)
    (hb0 : 0 ≤ best) (hble : best ≤ (cap : Int)) (hcap : cap < 2 ^ 53)
    (hdiv : 0 < h → difficulty1Target / h ≤ cap) :
    0 ≤ (bestUpdate best bn h n).1 ∧ (bestUpdate best bn h n).1 ≤ (cap : Int) := by
  rw [bestUpdate]
  by_cases h0 : 0 < h
  · rw [if_pos h0]
    have hq : difficulty1Target / h ≤ cap := hdiv h0
    have hg : goInt64 (difficulty1Target / h) = ((difficulty1Target / h : Nat) : Int) :=
      goInt64_eq_of_lt _ (lt_of_le_of_lt hq hcap)
    by_cases hlt : best < goInt64 (difficulty1Target / h)
    · rw [if_pos hlt]
      refine ⟨?_, ?_⟩
      · rw [hg]
        exact Int.natCast_nonneg _
      · dsimp only
        rw [hg]
        exact_mod_cast hq
    · rw [if_neg hlt]
      exact ⟨hb0, hble⟩
  · rw [if_neg h0]
    exact ⟨hb0, hble⟩

theorem bestUpdate_fst_eq (best : Int) (bn : String) (h n : Nat)
    (h0 : 0 < h) (h53 : difficulty1Target / h < 2 ^ 53)
    (hble : best ≤ ((difficulty1Target / h : Nat) : Int)) :
    (bestUpdate best bn h n).1 = ((difficulty1Target / h : Nat) : Int) := by
  rw [bestUpdate, if_pos h0]
  have hg : goInt64 (difficulty1Target / h) = ((difficulty1Target / h : Nat) : Int) :=
    goInt64_eq_of_lt _ h53
  by_cases hlt : best < goInt64 (difficulty1Target / h)
  · rw [if_pos hlt, hg]
  · rw [if_neg hlt]
    rw [hg] at hlt
    exact le_antisymm hble (not_lt.mp hlt)

theorem mineBatchLoop_found (dsha : List Nat → List Nat) (header : List Nat)
    (target : Nat) (nonces : Nat → Nat) :
    ∀ (fuel i : Nat) (best : Int) (bn nh : String) (D : Int),
      mineBatchLoop dsha header target nonces fuel i best bn = (true, nh, D) →
      ∃ k, i ≤ k ∧ k < i + fuel ∧ nh = toHex8 (nonces k % 2 ^ 32) ∧
        hashIntAt dsha header nonces k ≤ target ∧
        (∀ j, i ≤ j → j < k → target < hashIntAt dsha header nonces j) ∧
        (0 < hashIntAt dsha header nonces k →
         difficulty1Target / hashIntAt dsha header nonces k < 2 ^ 53 →
         0 ≤ best →
         best ≤ ((difficulty1Target / hashIntAt dsha header nonces k : Nat) : Int) →
         D = ((difficulty1Target / hashIntAt dsha header nonces k : Nat) : Int)) := by
  intro fuel
  induction fuel with
  | zero =>
    intro i best bn nh D hrun
    simp [mineBatchLoop] at hrun
  | succ fuel ih =>
    intro i best bn nh D hrun
    rw [mineBatchLoop] at hrun
    by_cases hfound : hashIntAt dsha header nonces i ≤ target
    · rw [if_pos hfound] at hrun
      obtain ⟨hnh, hD⟩ : toHex8 (nonces i % 2 ^ 32) = nh ∧
          (bestUpdate best bn (hashIntAt dsha header nonces i)
            (nonces i % 2 ^ 32)).1 = D := by
        have := hrun
        simp only [Prod.mk.injEq] at this
        exact ⟨this.2.1, this.2.2⟩
      refine ⟨i, le_refl i, by omega, hnh.symm, hfound,
        fun j hj1 hj2 => absurd (lt_of_le_of_lt hj1 hj2) (lt_irrefl i), ?_⟩
      intro h0 h53 hb0 hble
      rw [← hD, bestUpdate_fst_eq best bn _ _ h0 h53 hble]
    · rw [if_neg hfound] at hrun
      obtain ⟨k, hk1, hk2, hk3, hk4, hk5, hk6⟩ :=
        ih (i + 1) _ _ nh D hrun
      have hlt : target < hashIntAt dsha header nonces i := not_le.mp hfound
      refine ⟨k, by omega, by omega, hk3, hk4, ?_, ?_⟩
      · intro j hj1 hj2
        rcases Nat.eq_or_lt_of_le hj1 with hji | hji
        · rw [← hji]
          exact hlt
        · exact hk5 j hji hj2
      · intro h0 h53 hb0 hble
        have hki : hashIntAt dsha header nonces k
            ≤ hashIntAt dsha header nonces i :=
          le_of_lt (lt_of_le_of_lt hk4 hlt)
        have hdivle : difficulty1Target / hashIntAt dsha header nonces i
            ≤ difficulty1Target / hashIntAt dsha header nonces k :=
          Nat.div_le_div_left hki h0
        have hbounds := bestUpdate_fst_bounds best bn
          (hashIntAt dsha header nonces i) (nonces i % 2 ^ 32)
          (difficulty1Target / hashIntAt dsha header nonces k)
          hb0 hble h53 (fun _ => hdivle)
        exact hk6 h0 h53 hbounds.1 hbounds.2

/-- `mineBatch` unfolded to its loop over the built header and decoded
target, starting from best difficulty 0 and empty best nonce. -/
theorem mineBatch_eq_loop (dsha : List Nat → List Nat) (job : Job)
    (e1 e2 : String) (nonces : Nat → Nat) (batchSize : Nat) :
    mineBatch dsha job e1 e2 nonces batchSize
      = mineBatchLoop dsha (buildHeader dsha job e1 e2)
          (calculateTarget job.nbits) nonces batchSize 0 0 "" := rfl

/-- **C6**: whenever `mineBatch` reports a share, the winning nonce is one
of the attempted nonces and the hash integer of the header carrying it —
the big-endian integer of the reversed double-SHA-256 digest — is at most
the target decoded from the job's nbits. -/
theorem mineBatch_share_meets_target (dsha : List Nat → List Nat) (job : Job)
    (e1 e2 : String) (nonces : Nat → Nat) (batchSize : Nat) (nh : String)
    (D : Int)
    (hrun : mineBatch dsha job e1 e2 nonces batchSize = (true, nh, D)) :
    ∃ k, k < batchSize ∧ nh = toHex8 (nonces k % 2 ^ 32) ∧
      hashIntAt dsha (buildHeader dsha job e1 e2) nonces k
        ≤ calculateTarget job.nbits := by
  rw [mineBatch_eq_loop] at hrun
  obtain ⟨k, _, hk2, hk3, hk4, _, _⟩ := mineBatchLoop_found dsha
    (buildHeader dsha job e1 e2) (calculateTarget job.nbits) nonces
    batchSize 0 0 "" nh D hrun
  exact ⟨k, by omega, hk3, hk4⟩

/-- Witness for C6: with the all-zero digest and an empty job the very
first attempt reports a share. -/
theorem mineBatch_share_meets_target_witness :
    ∃ k, k < 1000 ∧ toHex8 0 = toHex8 ((fun _ => 0) k % 2 ^ 32) ∧
      hashIntAt zeroDigest (buildHeader zeroDigest emptyJob "" "")
        (fun _ => 0) k ≤ calculateTarget emptyJob.nbits :=
  mineBatch_share_meets_target zeroDigest emptyJob "" "" (fun _ => 0) 1000
    (toHex8 0) 0 (by decide)

/-- **C1 (amended)**: whenever `mineBatch` reports a share, the winning
hash integer H is at most the target, and — provided H > 0 and
`⌊difficulty_1_target / H⌋ < 2^53` (the range in which the source's
`float64(big.Int.Int64(...))` conversion chain is exact) — the reported
difficulty equals `⌊difficulty_1_target / H⌋`.  When H = 0 the reported
value is instead the best difficulty among the batch's earlier nonces
(see the counterexample), and above `2^63` the `Int64` conversion
wraps. -/
theorem mineBatch_reported_difficulty (dsha : List Nat → List Nat) (job : Job)
    (e1 e2 : String) (nonces : Nat → Nat) (batchSize : Nat) (nh : String)
    (D : Int)
    (hrun : mineBatch dsha job e1 e2 nonces batchSize = (true, nh, D)) :
    ∃ k, k < batchSize ∧ nh = toHex8 (nonces k % 2 ^ 32) ∧
      hashIntAt dsha (buildHeader dsha job e1 e2) nonces k
        ≤ calculateTarget job.nbits ∧
      (0 < hashIntAt dsha (buildHeader dsha job e1 e2) nonces k →
       difficulty1Target / hashIntAt dsha (buildHeader dsha job e1 e2) nonces k
         < 2 ^ 53 →
       D = ((difficulty1Target
              / hashIntAt dsha (buildHeader dsha job e1 e2) nonces k : Nat)
            : Int)) := by
  rw [mineBatch_eq_loop] at hrun
  obtain ⟨k, _, hk2, hk3, hk4, _, hk6⟩ := mineBatchLoop_found dsha
    (buildHeader dsha job e1 e2) (calculateTarget job.nbits) nonces
    batchSize 0 0 "" nh D hrun
  exact ⟨k, by omega, hk3, hk4,
    fun h0 h53 => hk6 h0 h53 (le_refl 0) (Int.natCast_nonneg _)⟩

/-- Witness for the amended C1 statement. -/
theorem mineBatch_reported_difficulty_witness :
    ∃ k, k < 500 ∧ toHex8 0 = toHex8 ((fun i => i) k % 2 ^ 32) ∧
      hashIntAt zeroDigest (buildHeader zeroDigest emptyJob "" "")
        (fun i => i) k ≤ calculateTarget emptyJob.nbits ∧
      (0 < hashIntAt zeroDigest (buildHeader zeroDigest emptyJob "" "")
          (fun i => i) k →
       difficulty1Target
         / hashIntAt zeroDigest (buildHeader zeroDigest emptyJob "" "")
             (fun i => i) k < 2 ^ 53 →
       (0 : Int) = ((difficulty1Target
          / hashIntAt zeroDigest (buildHeader zeroDigest emptyJob "" "")
              (fun i => i) k : Nat) : Int)) :=
  mineBatch_reported_difficulty zeroDigest emptyJob "" "" (fun i => i) 500
    (toHex8 0) 0 (by decide)

/-- **C1 counterexample**: a batch (digest oracle `cxDigest`, target 1)
whose first nonce hashes to the difficulty-1 target (achieved difficulty
1) and whose second nonce hashes to 0 emits the share on the second nonce
with reported difficulty 1 — not 0 as the claim requires for H = 0. -/
theorem mineBatch_difficulty_nonzero_at_zero_hash :
    mineBatch cxDigest cxJob "" "" (fun i => i) 1000 = (true, toHex8 1, 1) ∧
    hashIntAt cxDigest (buildHeader cxDigest cxJob "" "") (fun i => i) 1
      = 0 ∧
    (1 : Int) ≠ 0 :=
  ⟨by decide, by decide, by decide⟩

end SoloBTC
